import Mathlib

/-!
# Verification of the `ralgeb` linear-algebra library

A shallow embedding of the `ralgeb` Rust crate (matrix component in
`src/matrix.rs`, combinatorics in `src/combinatorics.rs`) together with
proofs about its behaviour.

Modelling conventions:
* `f64` entries are modelled by exact rationals `ℚ` (the operations used by
  the library are `+`, `-`, `*` and literals `0.0` / `1.0`).
* `usize` is modelled by `Nat`; checked (debug-mode) arithmetic is assumed,
  so a subtraction that would underflow is a fatal fault.
* A Rust call is modelled by an `Outcome`: a normal return (`ok`), a
  recoverable returned error value (`err`, carrying the cause of the
  `MatrixError`), or a fatal fault (`panic`: out-of-bounds `Vec` indexing,
  `unwrap` on an `Err`, arithmetic underflow, division by zero).
-/

namespace Ralgeb

/-- The distinct `ErrorCause` payloads produced in `src/matrix.rs`
(each variant corresponds to one `format!` message in the source). -/
inductive ErrCause where
  /-- "The should be non-zero" (zero scalar in `scalar_row_mul` / `scalar_mat_mul`). -/
  | scalarZero : ErrCause
  /-- "The row {r} does not exists" (`scalar_row_mul`). -/
  | rowNotExists : Nat → ErrCause
  /-- "The number of columns differ by {d}" (`replace_row`). -/
  | colsDiffer : Nat → ErrCause
  /-- "The matrix is not a square matrix" (`get_principal`). -/
  | notSquare : ErrCause
  /-- "The dimensions are different. Row Diff: {rd}, Col Diff: {cd}" (`add`/`subtract`). -/
  | dimMismatch : Nat → Nat → ErrCause
  /-- "The multiplication cannot be performed. The columns of matrix1 {c1} should be equal to rows of matrix2 {r2}" (`multiply`). -/
  | mulMismatch : Nat → Nat → ErrCause
  deriving DecidableEq

/-- Outcome of running a Rust function: a normal return, a recoverable
returned error (`Result::Err(MatrixError { .. })`), or a fatal fault
(a panic, e.g. out-of-bounds indexing or `unwrap` on an `Err`). -/
inductive Outcome (α : Type) where
  | ok : α → Outcome α
  | err : ErrCause → Outcome α
  | panic : Outcome α
  deriving DecidableEq

namespace Outcome

/-- Sequencing of Rust computations: errors and panics propagate. -/
def bind {α β : Type} : Outcome α → (α → Outcome β) → Outcome β
  | ok a, f => f a
  | err e, _ => err e
  | panic, _ => panic

/-- Mapping over a normal return. -/
def map {α β : Type} (f : α → β) : Outcome α → Outcome β
  | ok a => ok (f a)
  | err e => err e
  | panic => panic

end Outcome

/-- Indexing `v[i]` on a Rust `Vec`: panics when the index is out of bounds. -/
def vecIdx {α : Type} (l : List α) (i : Nat) : Outcome α :=
  if h : i < l.length then .ok (l.get ⟨i, h⟩) else .panic

/-- `usize` division `a / b`: panics on division by zero. -/
def rustDiv (a b : Nat) : Outcome Nat :=
  if b = 0 then .panic else .ok (a / b)

/-- Checked `usize` subtraction `a - b`: panics on underflow
(debug-mode overflow semantics). -/
def rustSub (a b : Nat) : Outcome Nat :=
  if b ≤ a then .ok (a - b) else .panic

/-! ## Combinatorics (`src/combinatorics.rs`) -/

/-- `fact(n)` from `src/combinatorics.rs`:
`if n == 1 { return 1; } return n * fact(n - 1);`.
The only base case is `n == 1`; at `n == 0` the recursion computes `0 - 1`
on a `usize`, an arithmetic underflow, so the call never returns normally
(modelled as the `panic` outcome). -/
def fact : Nat → Outcome Nat
  | 0 => .panic
  | 1 => .ok 1
  | n + 2 => (fact (n + 1)).map (fun f => (n + 2) * f)

/-- `permutation(n, r)` from `src/combinatorics.rs`:
`if n > r { fact(n) / fact(n - r) } else { 1 }`. -/
def permutation (n r : Nat) : Outcome Nat :=
  if n > r then
    (fact n).bind fun a => (fact (n - r)).bind fun b => rustDiv a b
  else .ok 1

/-- `combinations(n, r)` from `src/combinatorics.rs`:
`if n > r { permutation(n, r) / fact(r) } else { 1 }`. -/
def combinations (n r : Nat) : Outcome Nat :=
  if n > r then
    (permutation n r).bind fun p => (fact r).bind fun f => rustDiv p f
  else .ok 1

/-! ## Matrix (`src/matrix.rs`) -/

/-- The `Matrix` struct of `src/matrix.rs`: a `rows × cols` grid of `f64`
(modelled by `ℚ`), stored as a `Vec<Vec<f64>>` (modelled by nested lists). -/
structure Matrix where
  rows : Nat
  cols : Nat
  mat : List (List ℚ)
  deriving DecidableEq

/-- The representation invariant stated in the spec: `mat` has exactly `rows`
outer entries and every outer entry has exactly `cols` elements. -/
def WF (m : Matrix) : Prop :=
  m.mat.length = m.rows ∧ ∀ row ∈ m.mat, row.length = m.cols

instance (m : Matrix) : Decidable (WF m) := by
  unfold WF; infer_instance

/-- Entry `[i][j]` of a matrix (total read, used to state properties;
out-of-range positions read as `0`). -/
def entry (m : Matrix) (i j : Nat) : ℚ :=
  (m.mat.getD i []).getD j 0

/-- Reading `m.mat[i][j]` as the Rust code does: panics when either index
is out of bounds of the backing vectors. -/
def entryO (m : Matrix) (i j : Nat) : Outcome ℚ :=
  (vecIdx m.mat i).bind fun row => vecIdx row j

/-- `Matrix::new(rows, cols)`: pushes `rows` copies of `vec![0.0; cols]`,
then reports `rows = outer_vec.len()` and `cols = inner_vec.len()`. -/
def Matrix.new (rows cols : Nat) : Matrix :=
  { rows := rows, cols := cols
    mat := List.replicate rows (List.replicate cols 0) }

/-- The write `m.mat[r][r] = 1.0` performed by `Matrix::identity`
(the indices are always in range for the freshly built square grid,
so a plain positional update is faithful). -/
def setEntry (m : Matrix) (i j : Nat) (v : ℚ) : Matrix :=
  { m with mat := m.mat.set i ((m.mat.getD i []).set j v) }

/-- The loop of `Matrix::identity`: `while r < rows { m.mat[r][r] = 1.0 }`.
The first argument counts the remaining iterations (the loop starts at
`r = 0` and runs exactly `rows` times, so the count is exact, never cut
short: the `r < rows` condition is checked at every step as in the source). -/
def identityLoop (rows : Nat) : Nat → Nat → Matrix → Matrix
  | 0, _, m => m
  | k + 1, r, m =>
    if r < rows then identityLoop rows k (r + 1) (setEntry m r r 1) else m

/-- `Matrix::identity(rows, cols)`: `Some` of the diagonal-ones matrix when
`rows == cols`, `None` otherwise. -/
def Matrix.identity (rows cols : Nat) : Option Matrix :=
  if rows = cols then some (identityLoop rows rows 0 (Matrix.new rows cols))
  else none

/-- `Matrix::replace_row(row_num, row)`: a column-count mismatch is a
recoverable error; an out-of-range `row_num` reaches the assignment
`self.mat[row_num] = row`, which panics. -/
def Matrix.replace_row (m : Matrix) (row_num : Nat) (row : List ℚ) : Outcome Matrix :=
  if m.cols ≠ row.length then
    .err (.colsDiffer ((m.cols : Int) - (row.length : Int)).natAbs)
  else if row_num < m.mat.length then
    .ok { rows := m.rows, cols := m.cols, mat := m.mat.set row_num row }
  else .panic

/-- `Matrix::scalar_row_mul(row_num, scalar)`: rejects `scalar == 0.0`;
then checks `row_num <= self.rows` (note: `<=`, not `<`) and inside that
branch indexes `self.mat[row_num]`, which panics when `row_num` is not a
valid index of the backing grid. -/
def Matrix.scalar_row_mul (m : Matrix) (row_num : Nat) (scalar : ℚ) : Outcome Matrix :=
  if scalar = 0 then .err .scalarZero
  else if row_num ≤ m.rows then
    (vecIdx m.mat row_num).bind fun row =>
      .ok { rows := m.rows, cols := m.cols
            mat := m.mat.set row_num (row.map (fun x => x * scalar)) }
  else .err (.rowNotExists row_num)

/-- Sequences a list of Rust computations left to right, short-circuiting
on the first error or panic (the order in which a loop would hit them). -/
def seqList {α : Type} : List (Outcome α) → Outcome (List α)
  | [] => .ok []
  | x :: xs =>
    match x with
    | .ok a => (seqList xs).map (fun as => a :: as)
    | .err e => .err e
    | .panic => .panic

/-- Builds the list `[f 0, …, f (n-1)]` in row order, as a counting loop
from `0` to `n - 1` does. -/
def buildList {α : Type} (n : Nat) (f : Nat → Outcome α) : Outcome (List α) :=
  seqList ((List.range n).map f)

/-- Builds an `n × m` grid cell by cell, rows outermost, as the nested
`for i { for j { … } }` loops do. -/
def buildGrid (n m : Nat) (f : Nat → Nat → Outcome ℚ) : Outcome (List (List ℚ)) :=
  buildList n (fun i => buildList m (f i))

/-- `Matrix::get_col(col_num)`: when `col_num >= cols` it returns
`vec![0.; cols]` (note: `cols` zeros, not `rows`); otherwise it pushes
`r[col_num]` for each backing row `r` in order. -/
def Matrix.get_col (m : Matrix) (col_num : Nat) : Outcome (List ℚ) :=
  if col_num ≥ m.cols then .ok (List.replicate m.cols 0)
  else seqList (m.mat.map (fun r => vecIdx r col_num))

/-- `Matrix::dot_product(v1, v2)`: returns `0.0` when the lengths differ,
otherwise the sum of pairwise products (`result += v1[i] * v2[i]`). -/
def Matrix.dot_product (v1 v2 : List ℚ) : ℚ :=
  if v1.length ≠ v2.length then 0
  else (List.zipWith (fun a b => a * b) v1 v2).sum

/-- `Matrix::add(m1, m2)`: dimension check, then
`res.mat[i][j] = m1.mat[i][j] + m2.mat[i][j]` for `i < m2.rows`,
`j < m2.cols` into a fresh `new(m1.rows, m1.cols)` grid (every cell of
which the loops overwrite, since the dimensions agree). -/
def Matrix.add (m1 m2 : Matrix) : Outcome Matrix :=
  if m1.rows = m2.rows ∧ m1.cols = m2.cols then
    (buildGrid m2.rows m2.cols (fun i j =>
        (entryO m1 i j).bind fun a => (entryO m2 i j).bind fun b => .ok (a + b))).map
      (fun g => { rows := m1.rows, cols := m1.cols, mat := g })
  else
    .err (.dimMismatch ((m1.rows : Int) - (m2.rows : Int)).natAbs
                       ((m1.cols : Int) - (m2.cols : Int)).natAbs)

/-- `Matrix::subtract(m1, m2)`: same shape contract as `add`, with
`res.mat[i][j] = m1.mat[i][j] - m2.mat[i][j]`. -/
def Matrix.subtract (m1 m2 : Matrix) : Outcome Matrix :=
  if m1.rows = m2.rows ∧ m1.cols = m2.cols then
    (buildGrid m2.rows m2.cols (fun i j =>
        (entryO m1 i j).bind fun a => (entryO m2 i j).bind fun b => .ok (a - b))).map
      (fun g => { rows := m1.rows, cols := m1.cols, mat := g })
  else
    .err (.dimMismatch ((m1.rows : Int) - (m2.rows : Int)).natAbs
                       ((m1.cols : Int) - (m2.cols : Int)).natAbs)

/-- `Matrix::multiply(m1, m2)`: rejects `m1.cols != m2.rows`; otherwise
`result.mat[i][j] = dot_product(&m1.mat[i], &m2.get_col(j))` for
`i < m1.rows`, `j < m2.cols` into a fresh `new(m1.rows, m2.cols)` grid. -/
def Matrix.multiply (m1 m2 : Matrix) : Outcome Matrix :=
  if m1.cols ≠ m2.rows then .err (.mulMismatch m1.cols m2.rows)
  else
    (buildGrid m1.rows m2.cols (fun i j =>
        (vecIdx m1.mat i).bind fun row =>
          (m2.get_col j).bind fun col => .ok (Matrix.dot_product row col))).map
      (fun g => { rows := m1.rows, cols := m2.cols, mat := g })

/-- The inner loop of `Matrix::transpose` for column `c`:
`while m.rows > r { v.push(m.mat[r][c]) }`. -/
def colVec (m : Matrix) (c : Nat) : Outcome (List ℚ) :=
  buildList m.rows (fun r => entryO m r c)

/-- The outer loop of `Matrix::transpose`:
`while m.cols > c { mat = mat.replace_row(c, v).unwrap(); c += 1 }`;
`unwrap` turns a `replace_row` error into a panic. The first argument
counts the remaining iterations (the loop starts at `c = 0` and runs
exactly `m.cols` times; the `m.cols > c` condition is still checked at
every step as in the source). -/
def transposeLoop (m : Matrix) : Nat → Nat → Matrix → Outcome Matrix
  | 0, _, acc => .ok acc
  | k + 1, c, acc =>
    if m.cols > c then
      match colVec m c with
      | .ok v =>
        match acc.replace_row c v with
        | .ok acc2 => transposeLoop m k (c + 1) acc2
        | .err _ => .panic
        | .panic => .panic
      | .err e => .err e
      | .panic => .panic
    else .ok acc

/-- `Matrix::transpose(m)`: runs the column loop starting from a fresh
`new(m.cols, m.rows)` zero matrix. -/
def Matrix.transpose (m : Matrix) : Outcome Matrix :=
  transposeLoop m m.cols 0 (Matrix.new m.cols m.rows)

/-- The loop of `Matrix::scalar_mat_mul`:
`while r < self.rows { self = self.scalar_row_mul(r, scalar)?; r += 1 }`.
The first argument counts the remaining iterations (`scalar_row_mul`
never changes the `rows` field, so the loop starting at `r = 0` runs
exactly `self.rows` times; the `r < self.rows` condition is still
checked at every step as in the source). -/
def smmLoop (scalar : ℚ) : Nat → Nat → Matrix → Outcome Matrix
  | 0, _, m => .ok m
  | k + 1, r, m =>
    if r < m.rows then
      match m.scalar_row_mul r scalar with
      | .ok m2 => smmLoop scalar k (r + 1) m2
      | .err e => .err e
      | .panic => .panic
    else .ok m

/-- `Matrix::scalar_mat_mul(scalar)`: rejects `scalar == 0.0` up front,
then scales every row in sequence via `scalar_row_mul`, propagating any
per-row failure. -/
def Matrix.scalar_mat_mul (m : Matrix) (scalar : ℚ) : Outcome Matrix :=
  if scalar = 0 then .err .scalarZero
  else smmLoop scalar m.rows 0 m

/-- The canonical `n × m` grid whose `(i, j)` cell is `g i j`. -/
def gridOf (n m : Nat) (g : Nat → Nat → ℚ) : List (List ℚ) :=
  (List.range n).map (fun i => (List.range m).map (g i))

/-- The `i`-th backing row of a matrix (total read, empty when out of range). -/
def rowD (m : Matrix) (i : Nat) : List ℚ :=
  m.mat.getD i []

/-- Column `j` of a matrix as a mathematical list of its `rows` entries. -/
def colListOf (m : Matrix) (j : Nat) : List ℚ :=
  (List.range m.rows).map (fun k => entry m k j)

/-! ## Combinatorics lemmas -/

theorem fact_ok_of_pos : ∀ n : Nat, 1 ≤ n → fact n = .ok (Nat.factorial n)
  | 1, _ => rfl
  | n + 2, _ => by
    have ih := fact_ok_of_pos (n + 1) (Nat.succ_le_succ (Nat.zero_le n))
    simp [fact, ih, Outcome.map, Nat.factorial]

theorem fact_zero_panics : fact 0 = .panic := rfl

/-! ## Basic list and `Outcome` lemmas -/

theorem getD_map_range {α : Type} {n i : Nat} (f : Nat → α) (d : α) (h : i < n) :
    ((List.range n).map f).getD i d = f i := by
  rw [List.getD_eq_getElem _ _ (by simp [h])]
  simp

theorem vecIdx_eq_ok {α : Type} {l : List α} {i : Nat} (d : α) (h : i < l.length) :
    vecIdx l i = .ok (l.getD i d) := by
  unfold vecIdx
  rw [dif_pos h]
  congr 1
  rw [List.getD_eq_getElem _ _ h]
  simp

theorem vecIdx_panics {α : Type} {l : List α} {i : Nat} (h : l.length ≤ i) :
    vecIdx l i = .panic := by
  unfold vecIdx
  rw [dif_neg (by omega)]

theorem seqList_map_ok {α β : Type} {l : List α} {f : α → Outcome β} {g : α → β}
    (h : ∀ x ∈ l, f x = .ok (g x)) : seqList (l.map f) = .ok (l.map g) := by
  induction l with
  | nil => rfl
  | cons x xs ih =>
    have hx : f x = .ok (g x) := h x (List.mem_cons_self x xs)
    have hxs := ih (fun y hy => h y (List.mem_cons_of_mem x hy))
    simp [seqList, hx, hxs, Outcome.map]

theorem buildList_ok {α : Type} {n : Nat} {f : Nat → Outcome α} {g : Nat → α}
    (h : ∀ i < n, f i = .ok (g i)) :
    buildList n f = .ok ((List.range n).map g) := by
  unfold buildList
  exact seqList_map_ok (fun i hi => h i (List.mem_range.mp hi))

theorem buildGrid_ok {n m : Nat} {f : Nat → Nat → Outcome ℚ} {g : Nat → Nat → ℚ}
    (h : ∀ i < n, ∀ j < m, f i j = .ok (g i j)) :
    buildGrid n m f = .ok (gridOf n m g) := by
  unfold buildGrid gridOf
  exact buildList_ok (fun i hi => buildList_ok (h i hi))

/-! ## Well-formedness and entry lemmas -/

theorem length_rowD {m : Matrix} (hwf : WF m) {i : Nat} (hi : i < m.mat.length) :
    (rowD m i).length = m.cols := by
  apply hwf.2
  rw [rowD, List.getD_eq_getElem _ _ hi]
  exact List.getElem_mem hi

theorem entryO_eq_ok {m : Matrix} (hwf : WF m) {i j : Nat}
    (hi : i < m.rows) (hj : j < m.cols) :
    entryO m i j = .ok (entry m i j) := by
  have hlen : i < m.mat.length := by rw [hwf.1]; exact hi
  have hrl : j < (m.mat.getD i []).length := by
    have := length_rowD hwf hlen
    rw [rowD] at this
    omega
  rw [entryO, vecIdx_eq_ok ([] : List ℚ) hlen, Outcome.bind,
    vecIdx_eq_ok (0 : ℚ) hrl]
  rfl

theorem WF_gridOf {n m : Nat} {g : Nat → Nat → ℚ} :
    WF { rows := n, cols := m, mat := gridOf n m g } := by
  constructor
  · simp [gridOf]
  · intro row hrow
    simp only [gridOf, List.mem_map] at hrow
    obtain ⟨i, _, rfl⟩ := hrow
    simp

theorem entry_gridOf {n m : Nat} {g : Nat → Nat → ℚ} {i j : Nat}
    (hi : i < n) (hj : j < m) :
    entry { rows := n, cols := m, mat := gridOf n m g } i j = g i j := by
  simp only [entry, gridOf]
  rw [getD_map_range _ _ hi, getD_map_range _ _ hj]

theorem mat_eq_gridOf_of_WF {m : Matrix} (hwf : WF m) :
    m.mat = gridOf m.rows m.cols (entry m) := by
  apply List.ext_getElem
  · simp [gridOf, hwf.1]
  · intro i hi hi2
    apply List.ext_getElem
    · have hmem : m.mat[i] ∈ m.mat := List.getElem_mem hi
      simp only [gridOf, List.getElem_map, List.getElem_range, List.length_map,
        List.length_range]
      exact hwf.2 _ hmem
    · intro j hj hj2
      have hentry : entry m i j = m.mat[i][j] := by
        rw [entry, List.getD_eq_getElem _ _ hi]
        exact List.getD_eq_getElem _ _ hj
      simp only [gridOf, List.getElem_map, List.getElem_range]
      exact hentry.symm

theorem getD_eq_default_of_le {α : Type} {l : List α} {i : Nat} (d : α)
    (h : l.length ≤ i) : l.getD i d = d := by
  rw [List.getD_eq_getElem?_getD, List.getElem?_eq_none h]
  rfl

theorem getD_set_self {α : Type} {l : List α} {i : Nat} {v : α} (d : α)
    (h : i < l.length) : (l.set i v).getD i d = v := by
  simp [List.getD_eq_getElem?_getD, List.getElem?_set_self, h]

theorem getD_set_ne {α : Type} {l : List α} {i j : Nat} {v : α} (d : α)
    (h : i ≠ j) : (l.set i v).getD j d = l.getD j d := by
  simp [List.getD_eq_getElem?_getD, List.getElem?_set_ne h]

/-! ## `Matrix::new` -/

theorem WF_new (rows cols : Nat) : WF (Matrix.new rows cols) := by
  constructor
  · simp [Matrix.new]
  · intro row hrow
    simp only [Matrix.new, List.mem_replicate] at hrow
    rw [hrow.2]
    simp [Matrix.new]

theorem entry_new (rows cols i j : Nat) : entry (Matrix.new rows cols) i j = 0 := by
  unfold entry Matrix.new
  simp only
  rcases Nat.lt_or_ge i rows with hi | hi
  · have h1 : (List.replicate rows (List.replicate cols (0 : ℚ))).getD i []
        = List.replicate cols (0 : ℚ) := by
      rw [List.getD_eq_getElem _ _ (by simpa using hi)]
      simp
    rw [h1]
    rcases Nat.lt_or_ge j cols with hj | hj
    · rw [List.getD_eq_getElem _ _ (by simpa using hj)]
      simp
    · exact getD_eq_default_of_le 0 (by simpa using hj)
  · rw [getD_eq_default_of_le ([] : List ℚ) (by simpa using hi)]
    rfl

/-! ## `Matrix::identity` -/

theorem entry_setEntry {m : Matrix} {r c : Nat} {v : ℚ}
    (hr : r < m.mat.length) (hc : c < (rowD m r).length) (i j : Nat) :
    entry (setEntry m r c v) i j = if i = r ∧ j = c then v else entry m i j := by
  unfold rowD at hc
  unfold entry setEntry
  by_cases hir : i = r
  · subst hir
    simp only
    rw [getD_set_self ([] : List ℚ) hr]
    by_cases hjc : j = c
    · subst hjc
      rw [getD_set_self (0 : ℚ) hc]
      simp
    · rw [if_neg (by tauto), getD_set_ne (0 : ℚ) (fun h => hjc h.symm)]
  · simp only
    rw [getD_set_ne ([] : List ℚ) (fun h => hir h.symm), if_neg (by tauto)]

theorem mat_length_setEntry (m : Matrix) (r c : Nat) (v : ℚ) :
    (setEntry m r c v).mat.length = m.mat.length := by
  simp [setEntry]

theorem rowD_length_setEntry (m : Matrix) (r c : Nat) (v : ℚ) (i : Nat) :
    (rowD (setEntry m r c v) i).length = (rowD m i).length := by
  unfold rowD setEntry
  by_cases hir : i = r
  · subst hir
    by_cases h : i < m.mat.length
    · simp only
      rw [getD_set_self ([] : List ℚ) h]
      simp
    · simp only
      rw [List.set_eq_of_length_le (by omega)]
  · simp only
    rw [getD_set_ne ([] : List ℚ) (fun h => hir h.symm)]

theorem rows_setEntry (m : Matrix) (r c : Nat) (v : ℚ) :
    (setEntry m r c v).rows = m.rows := rfl

theorem cols_setEntry (m : Matrix) (r c : Nat) (v : ℚ) :
    (setEntry m r c v).cols = m.cols := rfl

theorem identityLoop_spec (rows : Nat) : ∀ (k r : Nat) (m : Matrix),
    rows ≤ r + k →
    m.mat.length = rows →
    (∀ i, i < rows → (rowD m i).length = rows) →
    (identityLoop rows k r m).rows = m.rows ∧
    (identityLoop rows k r m).cols = m.cols ∧
    (identityLoop rows k r m).mat.length = rows ∧
    (∀ i, i < rows → (rowD (identityLoop rows k r m) i).length = rows) ∧
    (∀ i j, entry (identityLoop rows k r m) i j =
        if r ≤ i ∧ i < rows ∧ j = i then 1 else entry m i j)
  | 0, r, m, hk, hlen, hrows => by
    refine ⟨rfl, rfl, hlen, hrows, ?_⟩
    intro i j
    rw [if_neg (by rintro ⟨h1, h2, _⟩; omega)]
    rfl
  | k + 1, r, m, hk, hlen, hrows => by
    by_cases hr : r < rows
    · have hr' : r < m.mat.length := by omega
      have hc' : r < (rowD m r).length := by rw [hrows r hr]; exact hr
      have hsetlen : (setEntry m r r 1).mat.length = rows := by
        rw [mat_length_setEntry]; exact hlen
      have hsetrows : ∀ i, i < rows → (rowD (setEntry m r r 1) i).length = rows := by
        intro i hi
        rw [rowD_length_setEntry]
        exact hrows i hi
      have ih := identityLoop_spec rows k (r + 1) (setEntry m r r 1)
        (by omega) hsetlen hsetrows
      rw [identityLoop, if_pos hr]
      refine ⟨?_, ?_, ih.2.2.1, ih.2.2.2.1, ?_⟩
      · rw [ih.1, rows_setEntry]
      · rw [ih.2.1, cols_setEntry]
      · intro i j
        rw [ih.2.2.2.2 i j, entry_setEntry hr' hc' i j]
        by_cases h1 : r + 1 ≤ i ∧ i < rows ∧ j = i
        · rw [if_pos h1, if_pos (by omega)]
        · rw [if_neg h1]
          by_cases h2 : i = r ∧ j = r
          · rw [if_pos h2, if_pos (by omega)]
          · rw [if_neg h2, if_neg (by omega)]
    · rw [identityLoop, if_neg hr]
      refine ⟨rfl, rfl, hlen, hrows, ?_⟩
      intro i j
      rw [if_neg (by rintro ⟨h1, h2, _⟩; omega)]

/-- Full characterisation of `Matrix::identity`. -/
theorem identity_spec (rows cols : Nat) :
    (rows = cols → ∃ m, Matrix.identity rows cols = some m ∧
      m.rows = rows ∧ m.cols = cols ∧ WF m ∧
      (∀ i, i < rows → entry m i i = 1) ∧
      (∀ i j, i < rows → j < cols → i ≠ j → entry m i j = 0)) ∧
    (rows ≠ cols → Matrix.identity rows cols = none) := by
  constructor
  · intro h
    subst h
    have hnew := WF_new rows rows
    have hlen : (Matrix.new rows rows).mat.length = rows := hnew.1
    have hrows : ∀ i, i < rows → (rowD (Matrix.new rows rows) i).length = rows := by
      intro i hi
      exact length_rowD hnew (by omega)
    have hspec := identityLoop_spec rows rows 0 (Matrix.new rows rows)
      (by omega) hlen hrows
    refine ⟨identityLoop rows rows 0 (Matrix.new rows rows), ?_, ?_, ?_, ?_, ?_, ?_⟩
    · rw [Matrix.identity, if_pos rfl]
    · rw [hspec.1]; rfl
    · rw [hspec.2.1]; rfl
    · refine ⟨?_, ?_⟩
      · rw [hspec.2.2.1, hspec.1]; rfl
      · intro row hrow
        have : ∃ i, ∃ h : i < (identityLoop rows rows 0 (Matrix.new rows rows)).mat.length,
            (identityLoop rows rows 0 (Matrix.new rows rows)).mat.get ⟨i, h⟩ = row := by
          rcases List.mem_iff_get.mp hrow with ⟨⟨i, hi⟩, hget⟩
          exact ⟨i, hi, hget⟩
        rcases this with ⟨i, hi, hget⟩
        have hiR : i < rows := by rw [hspec.2.2.1] at hi; exact hi
        have := hspec.2.2.2.1 i hiR
        rw [rowD, List.getD_eq_getElem _ _ hi] at this
        rw [← hget, List.get_eq_getElem, this, hspec.2.1]
        rfl
    · intro i hi
      rw [hspec.2.2.2.2]
      simp [hi]
    · intro i j hi hj hne
      rw [hspec.2.2.2.2,
        if_neg (show ¬(0 ≤ i ∧ i < rows ∧ j = i) from fun hh => hne hh.2.2.symm)]
      exact entry_new rows rows i j
  · intro h
    rw [Matrix.identity, if_neg h]

/-! ## `Matrix::replace_row` -/

theorem replace_row_ok {m : Matrix} {i : Nat} {v : List ℚ}
    (hlen : v.length = m.cols) (hi : i < m.mat.length) :
    m.replace_row i v =
      .ok { rows := m.rows, cols := m.cols, mat := m.mat.set i v } := by
  unfold Matrix.replace_row
  rw [if_neg (show ¬m.cols ≠ v.length from fun h => h hlen.symm), if_pos hi]

theorem replace_row_ok_inv {m m2 : Matrix} {i : Nat} {v : List ℚ}
    (h : m.replace_row i v = .ok m2) :
    m2.rows = m.rows ∧ m2.cols = m.cols ∧ m2.mat = m.mat.set i v ∧
      v.length = m.cols ∧ i < m.mat.length := by
  unfold Matrix.replace_row at h
  by_cases h1 : m.cols ≠ v.length
  · rw [if_pos h1] at h
    cases h
  · rw [if_neg h1] at h
    by_cases h2 : i < m.mat.length
    · rw [if_pos h2] at h
      cases h
      exact ⟨rfl, rfl, rfl, (not_not.mp h1).symm, h2⟩
    · rw [if_neg h2] at h
      cases h

theorem WF_replace_row {m m2 : Matrix} {i : Nat} {v : List ℚ}
    (hwf : WF m) (h : m.replace_row i v = .ok m2) : WF m2 := by
  obtain ⟨hr, hc, hm, hv, _⟩ := replace_row_ok_inv h
  constructor
  · rw [hm, List.length_set, hwf.1, hr]
  · intro row hrow
    rw [hm] at hrow
    rcases List.mem_or_eq_of_mem_set hrow with h1 | h1
    · rw [hc]; exact hwf.2 _ h1
    · rw [h1, hc]; exact hv

/-! ## `Matrix::scalar_row_mul` -/

theorem scalar_row_mul_ok {m : Matrix} {i : Nat} {s : ℚ}
    (hs : s ≠ 0) (hwf : WF m) (hi : i < m.rows) :
    m.scalar_row_mul i s =
      .ok { rows := m.rows, cols := m.cols,
            mat := m.mat.set i ((m.mat.getD i []).map (fun x => x * s)) } := by
  unfold Matrix.scalar_row_mul
  rw [if_neg hs, if_pos (by omega),
    vecIdx_eq_ok ([] : List ℚ) (by rw [hwf.1]; exact hi)]
  rfl

theorem scalar_row_mul_ok_inv {m m2 : Matrix} {i : Nat} {s : ℚ}
    (h : m.scalar_row_mul i s = .ok m2) :
    m2.rows = m.rows ∧ m2.cols = m.cols ∧
      m2.mat = m.mat.set i ((m.mat.getD i []).map (fun x => x * s)) ∧
      i < m.mat.length := by
  unfold Matrix.scalar_row_mul at h
  by_cases h1 : s = 0
  · rw [if_pos h1] at h
    cases h
  · rw [if_neg h1] at h
    by_cases h2 : i ≤ m.rows
    · rw [if_pos h2] at h
      by_cases h3 : i < m.mat.length
      · rw [vecIdx_eq_ok ([] : List ℚ) h3] at h
        simp only [Outcome.bind] at h
        cases h
        exact ⟨rfl, rfl, rfl, h3⟩
      · rw [vecIdx_panics (by omega)] at h
        simp only [Outcome.bind] at h
        cases h
    · rw [if_neg h2] at h
      cases h

theorem WF_scalar_row_mul {m m2 : Matrix} {i : Nat} {s : ℚ}
    (hwf : WF m) (h : m.scalar_row_mul i s = .ok m2) : WF m2 := by
  obtain ⟨hr, hc, hm, hlt⟩ := scalar_row_mul_ok_inv h
  constructor
  · rw [hm, List.length_set, hwf.1, hr]
  · intro row hrow
    rw [hm] at hrow
    rcases List.mem_or_eq_of_mem_set hrow with h1 | h1
    · rw [hc]; exact hwf.2 _ h1
    · rw [h1, List.length_map, hc]
      exact length_rowD hwf hlt

/-! ## `Matrix::get_col` and `Matrix::dot_product` -/

theorem get_col_ge {m : Matrix} {j : Nat} (hj : m.cols ≤ j) :
    m.get_col j = .ok (List.replicate m.cols 0) := by
  unfold Matrix.get_col
  rw [if_pos hj]

theorem get_col_lt {m : Matrix} (hwf : WF m) {j : Nat} (hj : j < m.cols) :
    m.get_col j = .ok (colListOf m j) := by
  unfold Matrix.get_col
  rw [if_neg (by omega)]
  have h1 : seqList (m.mat.map (fun r => vecIdx r j)) =
      .ok (m.mat.map (fun r => r.getD j 0)) :=
    seqList_map_ok (fun r hr => vecIdx_eq_ok 0 (by rw [hwf.2 r hr]; exact hj))
  rw [h1]
  congr 1
  apply List.ext_getElem
  · simp [colListOf, hwf.1]
  · intro k hk hk2
    have hk' : k < m.mat.length := by simpa using hk
    simp only [List.getElem_map, colListOf, List.getElem_range]
    rw [entry, List.getD_eq_getElem _ _ hk']

/-! ## `Matrix::add`, `Matrix::subtract`, `Matrix::multiply` -/

theorem add_ok {m1 m2 : Matrix} (h1 : WF m1) (h2 : WF m2)
    (hr : m1.rows = m2.rows) (hc : m1.cols = m2.cols) :
    m1.add m2 = .ok { rows := m1.rows, cols := m1.cols,
                      mat := gridOf m2.rows m2.cols
                        (fun i j => entry m1 i j + entry m2 i j) } := by
  unfold Matrix.add
  rw [if_pos (show m1.rows = m2.rows ∧ m1.cols = m2.cols from ⟨hr, hc⟩)]
  have hcells : ∀ i < m2.rows, ∀ j < m2.cols,
      ((entryO m1 i j).bind fun a => (entryO m2 i j).bind fun b => .ok (a + b)) =
        .ok (entry m1 i j + entry m2 i j) := by
    intro i hi j hj
    rw [entryO_eq_ok h1 (by omega) (by omega), entryO_eq_ok h2 hi hj]
    rfl
  rw [buildGrid_ok hcells]
  rfl

theorem add_err {m1 m2 : Matrix} (h : ¬(m1.rows = m2.rows ∧ m1.cols = m2.cols)) :
    m1.add m2 = .err (.dimMismatch ((m1.rows : Int) - (m2.rows : Int)).natAbs
      ((m1.cols : Int) - (m2.cols : Int)).natAbs) := by
  unfold Matrix.add
  rw [if_neg h]

theorem subtract_ok {m1 m2 : Matrix} (h1 : WF m1) (h2 : WF m2)
    (hr : m1.rows = m2.rows) (hc : m1.cols = m2.cols) :
    m1.subtract m2 = .ok { rows := m1.rows, cols := m1.cols,
                           mat := gridOf m2.rows m2.cols
                             (fun i j => entry m1 i j - entry m2 i j) } := by
  unfold Matrix.subtract
  rw [if_pos (show m1.rows = m2.rows ∧ m1.cols = m2.cols from ⟨hr, hc⟩)]
  have hcells : ∀ i < m2.rows, ∀ j < m2.cols,
      ((entryO m1 i j).bind fun a => (entryO m2 i j).bind fun b => .ok (a - b)) =
        .ok (entry m1 i j - entry m2 i j) := by
    intro i hi j hj
    rw [entryO_eq_ok h1 (by omega) (by omega), entryO_eq_ok h2 hi hj]
    rfl
  rw [buildGrid_ok hcells]
  rfl

theorem subtract_err {m1 m2 : Matrix}
    (h : ¬(m1.rows = m2.rows ∧ m1.cols = m2.cols)) :
    m1.subtract m2 = .err (.dimMismatch ((m1.rows : Int) - (m2.rows : Int)).natAbs
      ((m1.cols : Int) - (m2.cols : Int)).natAbs) := by
  unfold Matrix.subtract
  rw [if_neg h]

theorem multiply_err {m1 m2 : Matrix} (h : m1.cols ≠ m2.rows) :
    m1.multiply m2 = .err (.mulMismatch m1.cols m2.rows) := by
  unfold Matrix.multiply
  rw [if_pos h]

theorem multiply_ok {m1 m2 : Matrix} (h1 : WF m1) (h2 : WF m2)
    (h : m1.cols = m2.rows) :
    m1.multiply m2 = .ok { rows := m1.rows, cols := m2.cols,
                           mat := gridOf m1.rows m2.cols
                             (fun i j => Matrix.dot_product (rowD m1 i) (colListOf m2 j)) } := by
  unfold Matrix.multiply
  rw [if_neg (by omega)]
  have hcells : ∀ i < m1.rows, ∀ j < m2.cols,
      ((vecIdx m1.mat i).bind fun row =>
        (m2.get_col j).bind fun col => .ok (Matrix.dot_product row col)) =
        .ok (Matrix.dot_product (rowD m1 i) (colListOf m2 j)) := by
    intro i hi j hj
    rw [vecIdx_eq_ok ([] : List ℚ) (by rw [h1.1]; exact hi)]
    simp only [Outcome.bind]
    rw [get_col_lt h2 hj]
    rfl
  rw [buildGrid_ok hcells]
  rfl

/-! ## `Matrix::transpose` -/

theorem Matrix.ext' {a b : Matrix} (h1 : a.rows = b.rows) (h2 : a.cols = b.cols)
    (h3 : a.mat = b.mat) : a = b := by
  cases a
  cases b
  simp only at h1 h2 h3
  rw [h1, h2, h3]

theorem gridOf_congr {n m : Nat} {g g' : Nat → Nat → ℚ}
    (h : ∀ i < n, ∀ j < m, g i j = g' i j) : gridOf n m g = gridOf n m g' := by
  unfold gridOf
  apply List.map_congr_left
  intro i hi
  apply List.map_congr_left
  intro j hj
  exact h i (List.mem_range.mp hi) j (List.mem_range.mp hj)

theorem entry_of_mat_gridOf {t : Matrix} {n m : Nat} {g : Nat → Nat → ℚ}
    (hmat : t.mat = gridOf n m g) {i j : Nat} (hi : i < n) (hj : j < m) :
    entry t i j = g i j := by
  rw [entry, hmat]
  unfold gridOf
  rw [getD_map_range (d := ([] : List ℚ)) _ hi, getD_map_range (d := (0 : ℚ)) _ hj]

theorem transposeLoop_spec {m : Matrix} (hwf : WF m) : ∀ (k c : Nat) (acc : Matrix),
    m.cols ≤ c + k →
    acc.cols = m.rows →
    acc.mat.length = m.cols →
    (∀ row ∈ acc.mat, row.length = m.rows) →
    ∃ t, transposeLoop m k c acc = .ok t ∧
      t.rows = acc.rows ∧ t.cols = m.rows ∧ t.mat.length = m.cols ∧
      (∀ row ∈ t.mat, row.length = m.rows) ∧
      (∀ j, j < m.cols → t.mat.getD j [] =
        if c ≤ j then colListOf m j else acc.mat.getD j [])
  | 0, c, acc, hk, hc, hlen, hrows => by
    refine ⟨acc, rfl, rfl, hc, hlen, hrows, ?_⟩
    intro j hj
    rw [if_neg (by omega)]
  | k + 1, c, acc, hk, hc, hlen, hrows => by
    by_cases hcc : m.cols > c
    · have hcol : colVec m c = .ok (colListOf m c) := by
        unfold colVec colListOf
        exact buildList_ok (fun r hr => entryO_eq_ok hwf hr hcc)
      have hvlen : (colListOf m c).length = m.rows := by simp [colListOf]
      have hrr : acc.replace_row c (colListOf m c) =
          .ok { rows := acc.rows, cols := acc.cols,
                mat := acc.mat.set c (colListOf m c) } :=
        replace_row_ok (by rw [hvlen, hc]) (by rw [hlen]; exact hcc)
      have hlen2 : ({ rows := acc.rows, cols := acc.cols,
                      mat := acc.mat.set c (colListOf m c) } : Matrix).mat.length = m.cols := by
        simp only [List.length_set]
        exact hlen
      have hrows2 : ∀ row ∈ ({ rows := acc.rows, cols := acc.cols,
                               mat := acc.mat.set c (colListOf m c) } : Matrix).mat,
          row.length = m.rows := by
        intro row hrow
        rcases List.mem_or_eq_of_mem_set hrow with hh | hh
        · exact hrows row hh
        · rw [hh]; exact hvlen
      obtain ⟨t, ht, htr, htc, htlen, htrows, hentries⟩ :=
        transposeLoop_spec hwf k (c + 1)
          { rows := acc.rows, cols := acc.cols, mat := acc.mat.set c (colListOf m c) }
          (by omega) hc hlen2 hrows2
      refine ⟨t, ?_, htr, htc, htlen, htrows, ?_⟩
      · simp only [transposeLoop]
        rw [if_pos hcc]
        simp only [hcol, hrr]
        exact ht
      · intro j hj
        rw [hentries j hj]
        by_cases hcj : c + 1 ≤ j
        · rw [if_pos hcj, if_pos (by omega)]
        · by_cases hjc : j = c
          · subst hjc
            rw [if_neg hcj, if_pos (le_refl j)]
            simp only
            rw [getD_set_self ([] : List ℚ) (by rw [hlen]; exact hcc)]
          · rw [if_neg hcj, if_neg (by omega)]
            simp only
            rw [getD_set_ne ([] : List ℚ) (fun h => hjc h.symm)]
    · refine ⟨acc, ?_, rfl, hc, hlen, hrows, ?_⟩
      · simp only [transposeLoop]
        rw [if_neg hcc]
      · intro j hj
        rw [if_neg (by omega)]

theorem transpose_spec {m : Matrix} (hwf : WF m) :
    ∃ t, m.transpose = .ok t ∧ t.rows = m.cols ∧ t.cols = m.rows ∧ WF t ∧
      t.mat = gridOf m.cols m.rows (fun j i => entry m i j) := by
  have hnew := WF_new m.cols m.rows
  obtain ⟨t, ht, htr, htc, htlen, htrows, hentries⟩ :=
    transposeLoop_spec hwf m.cols 0 (Matrix.new m.cols m.rows) (by omega)
      rfl hnew.1 (fun row hrow => hnew.2 row hrow)
  refine ⟨t, ht, ?_, htc, ⟨?_, ?_⟩, ?_⟩
  · rw [htr]; rfl
  · rw [htlen, htr]; rfl
  · intro row hrow
    rw [htc]
    exact htrows row hrow
  · apply List.ext_getElem
    · rw [htlen]
      simp [gridOf]
    · intro j hj hj2
      have hjc : j < m.cols := by rw [htlen] at hj; exact hj
      have hcol := hentries j hjc
      rw [if_pos (Nat.zero_le j)] at hcol
      rw [← List.getD_eq_getElem _ ([] : List ℚ) hj, hcol,
        ← List.getD_eq_getElem _ ([] : List ℚ) hj2]
      simp only [gridOf]
      rw [getD_map_range (d := ([] : List ℚ)) _ hjc]
      rfl

theorem transpose_transpose_eq {m : Matrix} (hwf : WF m) :
    ∃ t, m.transpose = .ok t ∧ t.transpose = .ok m := by
  obtain ⟨t, ht, htr, htc, htwf, htmat⟩ := transpose_spec hwf
  obtain ⟨u, hu, hur, huc, huwf, humat⟩ := transpose_spec htwf
  refine ⟨t, ht, ?_⟩
  rw [hu]
  congr 1
  apply Matrix.ext'
  · rw [hur, htc]
  · rw [huc, htr]
  · rw [humat, htc, htr]
    have hmm := mat_eq_gridOf_of_WF hwf
    rw [hmm]
    apply gridOf_congr
    intro i hi j hj
    exact entry_of_mat_gridOf htmat hj hi

/-! ## `Matrix::scalar_mat_mul` -/

theorem smmLoop_spec {s : ℚ} (hs : s ≠ 0) : ∀ (k r : Nat) (m : Matrix),
    m.rows ≤ r + k → WF m →
    ∃ m2, smmLoop s k r m = .ok m2 ∧ WF m2 ∧ m2.rows = m.rows ∧ m2.cols = m.cols
  | 0, r, m, hk, hwf => ⟨m, rfl, hwf, rfl, rfl⟩
  | k + 1, r, m, hk, hwf => by
    by_cases hr : r < m.rows
    · have hok := scalar_row_mul_ok hs hwf hr
      have hwf2 := WF_scalar_row_mul hwf hok
      obtain ⟨m2, hm2, hwf3, hrr, hcc⟩ := smmLoop_spec hs k (r + 1)
        { rows := m.rows, cols := m.cols,
          mat := m.mat.set r ((m.mat.getD r []).map (fun x => x * s)) }
        (by simpa using by omega) hwf2
      refine ⟨m2, ?_, hwf3, by simpa using hrr, by simpa using hcc⟩
      simp only [smmLoop]
      rw [if_pos hr]
      simp only [hok]
      exact hm2
    · refine ⟨m, ?_, hwf, rfl, rfl⟩
      simp only [smmLoop]
      rw [if_neg hr]

theorem scalar_mat_mul_spec {m : Matrix} {s : ℚ} (hwf : WF m) (hs : s ≠ 0) :
    ∃ m2, m.scalar_mat_mul s = .ok m2 ∧ WF m2 ∧ m2.rows = m.rows ∧ m2.cols = m.cols := by
  obtain ⟨m2, h, hw, hr, hc⟩ := smmLoop_spec hs m.rows 0 m (by omega) hwf
  refine ⟨m2, ?_, hw, hr, hc⟩
  rw [Matrix.scalar_mat_mul, if_neg hs]
  exact h

theorem WF_scalar_mat_mul {m m2 : Matrix} {s : ℚ}
    (hwf : WF m) (h : m.scalar_mat_mul s = .ok m2) : WF m2 := by
  by_cases hs : s = 0
  · rw [Matrix.scalar_mat_mul, if_pos hs] at h
    cases h
  · obtain ⟨m2', h', hw, _, _⟩ := scalar_mat_mul_spec hwf hs
    rw [h'] at h
    cases h
    exact hw

/-! ## `permutation` and `combinations` lemmas -/

theorem permutation_of_lt {n r : Nat} (h : r < n) :
    permutation n r = .ok (Nat.factorial n / Nat.factorial (n - r)) := by
  unfold permutation
  rw [if_pos h, fact_ok_of_pos n (by omega), fact_ok_of_pos (n - r) (by omega)]
  simp only [Outcome.bind]
  unfold rustDiv
  rw [if_neg (Nat.factorial_pos (n - r)).ne']

theorem permutation_of_ge {n r : Nat} (h : n ≤ r) : permutation n r = .ok 1 := by
  unfold permutation
  rw [if_neg (by omega)]

/-! ## Claims -/

/-- Claim C1. The claim states that `scalar_row_mul(i, s)` with `s ≠ 0`
returns a recoverable index-out-of-bounds error exactly when `i >= rows`
and that no index is a fatal fault. The code checks `row_num <= self.rows`
(an off-by-one), so at `i = rows` it reaches `self.mat[i]`, a fatal
out-of-bounds indexing fault rather than a returned error: here on the
2×2 zero matrix with row index `2` and scalar `3`. -/
theorem scalar_row_mul_fatal_at_rows :
    (Matrix.new 2 2).scalar_row_mul 2 3 = .panic := by
  unfold Matrix.scalar_row_mul
  rw [if_neg (by norm_num), if_pos (by norm_num [Matrix.new]),
    vecIdx_panics (by simp [Matrix.new])]
  rfl

/-- Claim C2. Every public Matrix-producing operation yields a matrix whose
backing grid has exactly `rows` outer entries, each of exactly `cols`
elements (for the transforming operations, assuming the inputs satisfy the
invariant, as every matrix the library hands out does). -/
theorem shape_invariant_all_ops :
    (∀ r c, WF (Matrix.new r c)) ∧
    (∀ r c m, Matrix.identity r c = some m → WF m) ∧
    (∀ (m : Matrix) (i : Nat) (v : List ℚ) (m2 : Matrix),
      WF m → m.replace_row i v = .ok m2 → WF m2) ∧
    (∀ (m : Matrix) (i : Nat) (s : ℚ) (m2 : Matrix),
      WF m → m.scalar_row_mul i s = .ok m2 → WF m2) ∧
    (∀ (m : Matrix) (s : ℚ) (m2 : Matrix),
      WF m → m.scalar_mat_mul s = .ok m2 → WF m2) ∧
    (∀ (m t : Matrix), WF m → m.transpose = .ok t → WF t) ∧
    (∀ (m1 m2 m3 : Matrix), WF m1 → WF m2 → m1.add m2 = .ok m3 → WF m3) ∧
    (∀ (m1 m2 m3 : Matrix), WF m1 → WF m2 → m1.subtract m2 = .ok m3 → WF m3) ∧
    (∀ (m1 m2 m3 : Matrix), WF m1 → WF m2 → m1.multiply m2 = .ok m3 → WF m3) := by
  refine ⟨WF_new, ?_, ?_, ?_, ?_, ?_, ?_, ?_, ?_⟩
  · intro r c m h
    by_cases hrc : r = c
    · obtain ⟨m', hm', _, _, hwf, _, _⟩ := (identity_spec r c).1 hrc
      rw [hm'] at h
      cases h
      exact hwf
    · rw [(identity_spec r c).2 hrc] at h
      cases h
  · intro m i v m2 hwf h
    exact WF_replace_row hwf h
  · intro m i s m2 hwf h
    exact WF_scalar_row_mul hwf h
  · intro m s m2 hwf h
    exact WF_scalar_mat_mul hwf h
  · intro m t hwf h
    obtain ⟨t', ht', _, _, hwf', _⟩ := transpose_spec hwf
    rw [ht'] at h
    cases h
    exact hwf'
  · intro m1 m2 m3 h1 h2 h
    by_cases hd : m1.rows = m2.rows ∧ m1.cols = m2.cols
    · rw [add_ok h1 h2 hd.1 hd.2] at h
      cases h
      refine ⟨?_, ?_⟩
      · simp [gridOf, hd.1]
      · intro row hrow
        simp only [gridOf, List.mem_map] at hrow
        obtain ⟨i, _, rfl⟩ := hrow
        simp [hd.2]
    · rw [add_err hd] at h
      cases h
  · intro m1 m2 m3 h1 h2 h
    by_cases hd : m1.rows = m2.rows ∧ m1.cols = m2.cols
    · rw [subtract_ok h1 h2 hd.1 hd.2] at h
      cases h
      refine ⟨?_, ?_⟩
      · simp [gridOf, hd.1]
      · intro row hrow
        simp only [gridOf, List.mem_map] at hrow
        obtain ⟨i, _, rfl⟩ := hrow
        simp [hd.2]
    · rw [subtract_err hd] at h
      cases h
  · intro m1 m2 m3 h1 h2 h
    by_cases hd : m1.cols = m2.rows
    · rw [multiply_ok h1 h2 hd] at h
      cases h
      refine ⟨?_, ?_⟩
      · simp [gridOf]
      · intro row hrow
        simp only [gridOf, List.mem_map] at hrow
        obtain ⟨i, _, rfl⟩ := hrow
        simp
    · rw [multiply_err hd] at h
      cases h

/-- Witness for claim C2: each conjunct applied at a concrete input. -/
theorem shape_invariant_all_ops_witness :
    WF (Matrix.new 2 3) ∧
    (∃ m, Matrix.identity 2 2 = some m ∧ WF m) ∧
    (∃ m2, ({ rows := 1, cols := 2, mat := [[1, 2]] } : Matrix).replace_row 0 [5, 6] =
      .ok m2 ∧ WF m2) ∧
    (∃ m2, ({ rows := 1, cols := 2, mat := [[1, 2]] } : Matrix).scalar_row_mul 0 2 =
      .ok m2 ∧ WF m2) ∧
    (∃ m2, (Matrix.new 2 2).scalar_mat_mul 3 = .ok m2 ∧ WF m2) ∧
    (∃ t, (Matrix.new 2 3).transpose = .ok t ∧ WF t) ∧
    (∃ m3, ({ rows := 1, cols := 1, mat := [[1]] } : Matrix).add
      { rows := 1, cols := 1, mat := [[2]] } = .ok m3 ∧ WF m3) ∧
    (∃ m3, ({ rows := 1, cols := 1, mat := [[1]] } : Matrix).subtract
      { rows := 1, cols := 1, mat := [[2]] } = .ok m3 ∧ WF m3) ∧
    (∃ m3, ({ rows := 1, cols := 1, mat := [[1]] } : Matrix).multiply
      { rows := 1, cols := 1, mat := [[2]] } = .ok m3 ∧ WF m3) := by
  obtain ⟨h1, h2, h3, h4, h5, h6, h7, h8, h9⟩ := shape_invariant_all_ops
  refine ⟨h1 2 3, ?_, ?_, ?_, ?_, ?_, ?_, ?_, ?_⟩
  · obtain ⟨m, hm, _⟩ := (identity_spec 2 2).1 rfl
    exact ⟨m, hm, h2 2 2 m hm⟩
  · have hok := @replace_row_ok ⟨1, 2, [[1, 2]]⟩ 0 [5, 6] (by decide) (by decide)
    exact ⟨_, hok, h3 _ 0 [5, 6] _ (by decide) hok⟩
  · have hok := @scalar_row_mul_ok ⟨1, 2, [[1, 2]]⟩ 0 2 (by norm_num) (by decide)
      (by decide)
    exact ⟨_, hok, h4 _ 0 2 _ (by decide) hok⟩
  · obtain ⟨m2, hm2, _, _, _⟩ :=
      @scalar_mat_mul_spec (Matrix.new 2 2) 3 (WF_new 2 2) (by norm_num)
    exact ⟨m2, hm2, h5 _ 3 m2 (WF_new 2 2) hm2⟩
  · obtain ⟨t, ht, _, _, _, _⟩ := transpose_spec (WF_new 2 3)
    exact ⟨t, ht, h6 _ t (WF_new 2 3) ht⟩
  · have hok := @add_ok ⟨1, 1, [[1]]⟩ ⟨1, 1, [[2]]⟩ (by decide) (by decide) rfl rfl
    exact ⟨_, hok, h7 _ _ _ (by decide) (by decide) hok⟩
  · have hok := @subtract_ok ⟨1, 1, [[1]]⟩ ⟨1, 1, [[2]]⟩ (by decide) (by decide) rfl
      rfl
    exact ⟨_, hok, h8 _ _ _ (by decide) (by decide) hok⟩
  · have hok := @multiply_ok ⟨1, 1, [[1]]⟩ ⟨1, 1, [[2]]⟩ (by decide) (by decide) rfl
    exact ⟨_, hok, h9 _ _ _ (by decide) (by decide) hok⟩

/-- Claim C3. `multiply(m1, m2)` fails with the dimension-mismatch error
exactly when `m1.cols ≠ m2.rows`; otherwise it returns an
`m1.rows × m2.cols` matrix whose entry `[i][j]` is the dot product of
row `i` of `m1` and column `j` of `m2`. -/
theorem multiply_claim (m1 m2 : Matrix) (h1 : WF m1) (h2 : WF m2) :
    (m1.cols ≠ m2.rows → m1.multiply m2 = .err (.mulMismatch m1.cols m2.rows)) ∧
    (m1.cols = m2.rows → ∃ r, m1.multiply m2 = .ok r ∧
      r.rows = m1.rows ∧ r.cols = m2.cols ∧
      ∀ i j, i < m1.rows → j < m2.cols →
        entry r i j = Matrix.dot_product (rowD m1 i) (colListOf m2 j)) := by
  constructor
  · exact multiply_err
  · intro h
    refine ⟨_, multiply_ok h1 h2 h, rfl, rfl, ?_⟩
    intro i j hi hj
    exact entry_gridOf hi hj

/-- Witness for claim C3: a 2×2 by 2×1 product, plus the mismatch case. -/
theorem multiply_claim_witness :
    (∃ r, ({ rows := 2, cols := 2, mat := [[1, 2], [3, 4]] } : Matrix).multiply
        { rows := 2, cols := 1, mat := [[5], [6]] } = .ok r ∧
      r.rows = 2 ∧ r.cols = 1 ∧
      ∀ i j, i < 2 → j < 1 →
        entry r i j = Matrix.dot_product
          (rowD { rows := 2, cols := 2, mat := [[1, 2], [3, 4]] } i)
          (colListOf { rows := 2, cols := 1, mat := [[5], [6]] } j)) ∧
    ({ rows := 2, cols := 2, mat := [[1, 2], [3, 4]] } : Matrix).multiply
        { rows := 1, cols := 1, mat := [[5]] } = .err (.mulMismatch 2 1) := by
  constructor
  · exact (multiply_claim _ _ (by decide) (by decide)).2 rfl
  · exact (multiply_claim _ _ (by decide) (by decide)).1 (by decide)

/-- Claim C4. `transpose(m)` always succeeds on a well-formed matrix,
produces a `cols × rows` matrix with entry `[j][i]` equal to input entry
`[i][j]`, and transposing twice gives back `m` (round-trip law), including
for matrices with zero rows or zero columns. -/
theorem transpose_claim (m : Matrix) (hwf : WF m) :
    ∃ t, m.transpose = .ok t ∧ t.rows = m.cols ∧ t.cols = m.rows ∧
      (∀ i j, i < m.rows → j < m.cols → entry t j i = entry m i j) ∧
      t.transpose = .ok m := by
  obtain ⟨t, ht, htr, htc, htwf, htmat⟩ := transpose_spec hwf
  obtain ⟨t2, ht2, htt2⟩ := transpose_transpose_eq hwf
  have ht2t : t2 = t := by
    rw [ht] at ht2
    cases ht2
    rfl
  subst ht2t
  refine ⟨t2, ht, htr, htc, ?_, htt2⟩
  intro i j hi hj
  exact entry_of_mat_gridOf htmat hj hi

/-- Witness for claim C4: a 2×3 matrix and a 0×2 matrix. -/
theorem transpose_claim_witness :
    (∃ t, ({ rows := 2, cols := 3, mat := [[1, 2, 3], [4, 5, 6]] } : Matrix).transpose
        = .ok t ∧ t.rows = 3 ∧ t.cols = 2 ∧
      (∀ i j, i < 2 → j < 3 →
        entry t j i = entry { rows := 2, cols := 3, mat := [[1, 2, 3], [4, 5, 6]] } i j) ∧
      t.transpose = .ok { rows := 2, cols := 3, mat := [[1, 2, 3], [4, 5, 6]] }) ∧
    (∃ t, ({ rows := 0, cols := 2, mat := [] } : Matrix).transpose = .ok t ∧
      t.rows = 2 ∧ t.cols = 0 ∧
      (∀ i j, i < 0 → j < 2 →
        entry t j i = entry { rows := 0, cols := 2, mat := [] } i j) ∧
      t.transpose = .ok { rows := 0, cols := 2, mat := [] }) := by
  exact ⟨transpose_claim _ (by decide), transpose_claim _ (by decide)⟩

/-- Claim C6. `identity(rows, cols)` returns a value exactly when
`rows = cols`: a `rows × cols` matrix with `1.0` on the diagonal and `0.0`
elsewhere; otherwise it returns `none` (absence, not an error). -/
theorem identity_claim (rows cols : Nat) :
    (rows = cols → ∃ m, Matrix.identity rows cols = some m ∧
      m.rows = rows ∧ m.cols = cols ∧ WF m ∧
      (∀ i, i < rows → entry m i i = 1) ∧
      (∀ i j, i < rows → j < cols → i ≠ j → entry m i j = 0)) ∧
    (rows ≠ cols → Matrix.identity rows cols = none) :=
  identity_spec rows cols

/-- Witness for claim C6: the 3×3 identity and the rejected 3×4 request. -/
theorem identity_claim_witness :
    (∃ m, Matrix.identity 3 3 = some m ∧
      m.rows = 3 ∧ m.cols = 3 ∧ WF m ∧
      (∀ i, i < 3 → entry m i i = 1) ∧
      (∀ i j, i < 3 → j < 3 → i ≠ j → entry m i j = 0)) ∧
    Matrix.identity 3 4 = none :=
  ⟨(identity_claim 3 3).1 rfl, (identity_claim 3 4).2 (by decide)⟩

/-- Claim C7. `get_col(j)` on a well-formed matrix never fails: for
`j ≥ cols` it returns a vector of exactly `cols` zeros (not `rows` zeros),
and for `j < cols` it returns the `rows` entries `data[0][j], …,
data[rows-1][j]`. -/
theorem get_col_claim (m : Matrix) (j : Nat) (hwf : WF m) :
    (m.cols ≤ j → m.get_col j = .ok (List.replicate m.cols 0)) ∧
    (j < m.cols → ∃ v, m.get_col j = .ok v ∧ v.length = m.rows ∧
      ∀ i, i < m.rows → v.getD i 0 = entry m i j) := by
  constructor
  · exact get_col_ge
  · intro hj
    refine ⟨colListOf m j, get_col_lt hwf hj, by simp [colListOf], ?_⟩
    intro i hi
    unfold colListOf
    rw [getD_map_range _ _ hi]

/-- Witness for claim C7: a 3×2 matrix, out-of-range column 5 (two zeros,
not three) and in-range column 1. -/
theorem get_col_claim_witness :
    ({ rows := 3, cols := 2, mat := [[1, 2], [3, 4], [5, 6]] } : Matrix).get_col 5 =
      .ok (List.replicate 2 0) ∧
    (∃ v, ({ rows := 3, cols := 2, mat := [[1, 2], [3, 4], [5, 6]] } : Matrix).get_col 1 =
      .ok v ∧ v.length = 3 ∧
      ∀ i, i < 3 →
        v.getD i 0 = entry { rows := 3, cols := 2, mat := [[1, 2], [3, 4], [5, 6]] } i 1) := by
  constructor
  · exact (get_col_claim _ 5 (by decide)).1 (by decide)
  · exact (get_col_claim _ 1 (by decide)).2 (by decide)

/-- Claim C8. For every `n ≥ 1`, `fact(n)` returns the mathematical
factorial `n!` (the machine-integer computation is modelled over `Nat`,
matching the claim's no-overflow assumption). -/
theorem fact_claim (n : Nat) (h : 1 ≤ n) : fact n = .ok (Nat.factorial n) :=
  fact_ok_of_pos n h

/-- Witness for claim C8: `fact 3 = 6`. -/
theorem fact_claim_witness : fact 3 = .ok 6 := fact_claim 3 (by decide)

/-- Claim C9. `permutation(n, r)` returns `n! / (n-r)!` when `n > r` and
returns `1` when `n ≤ r` (in particular at `r = n`), raising no error. -/
theorem permutation_claim (n r : Nat) :
    (r < n → permutation n r = .ok (Nat.factorial n / Nat.factorial (n - r))) ∧
    (n ≤ r → permutation n r = .ok 1) :=
  ⟨permutation_of_lt, permutation_of_ge⟩

/-- Witness for claim C9: `permutation 4 2 = 12` and `permutation 2 5 = 1`. -/
theorem permutation_claim_witness :
    permutation 4 2 = .ok 12 ∧ permutation 2 5 = .ok 1 :=
  ⟨(permutation_claim 4 2).1 (by decide), (permutation_claim 2 5).2 (by decide)⟩

/-- Claim C10. For every `n ≥ 1`, `combinations(n, 0)` never returns a
value: it evaluates `fact(0)`, whose only base case is `n == 1`, so the
recursion decrements the unsigned argument past zero — a fatal fault
(modelled as the `panic` outcome), not a normal return — even though the
mathematical value `C(n, 0)` is `1`. -/
theorem combinations_zero_claim (n : Nat) (h : 1 ≤ n) :
    combinations n 0 = .panic ∧ fact 0 = .panic ∧ Nat.choose n 0 = 1 := by
  refine ⟨?_, rfl, Nat.choose_zero_right n⟩
  unfold combinations
  rw [if_pos (by omega), permutation_of_lt (by omega)]
  simp only [Outcome.bind, fact]

/-- Witness for claim C10: `combinations 4 0` is a fatal fault although
`C(4, 0) = 1`. -/
theorem combinations_zero_claim_witness :
    combinations 4 0 = .panic ∧ fact 0 = .panic ∧ Nat.choose 4 0 = 1 :=
  combinations_zero_claim 4 (by decide)

end Ralgeb
